import Mathlib

/-
  Verification of the ioa repository: orchestration core (agent registry,
  execution graph, orchestrator), worker reply contracts, the web crawler's
  chunk-refcount store, URL normalization, and the text splitter.

  Shallow embedding conventions:
  * Python dicts (insertion ordered, update-in-place) are association lists
    with the operations alookup / dictSet / delKey below.
  * Redis hashes, sets and the vector store are association lists / lists in
    an explicit state record.
  * External collaborators (LLM, web search, renderer, subprocess) are
    oracle parameters of type Except or plain functions.
-/

namespace Ioa

/-! ## Association lists with Python dict semantics -/

def alookup {α β : Type} [DecidableEq α] : List (α × β) → α → Option β
  | [], _ => none
  | p :: rest, k => if p.1 = k then some p.2 else alookup rest k

/-- Python dict assignment: update the existing key in place (keeping its
position) or append a fresh key at the end. -/
def dictSet {α β : Type} [DecidableEq α] : List (α × β) → α → β → List (α × β)
  | [], k, v => [(k, v)]
  | p :: rest, k, v => if p.1 = k then (k, v) :: rest else p :: dictSet rest k v

def delKey {α β : Type} [DecidableEq α] (l : List (α × β)) (k : α) : List (α × β) :=
  l.filter (fun p => ¬ (p.1 = k))

/-! ## Agent registry (src/src/agent_registry.py)

The source class stores a nested dict: agent_type to a dict from address to
status string; register sets the inner entry to the string idle. -/

structure AgentRegistry where
  agents : List (String × List (String × String))
deriving DecidableEq, Repr

namespace AgentRegistry

/-- Embeds AgentRegistry.register: ensure the outer key exists, then set the
address entry to idle (Python dict update-in-place or append). -/
def register (reg : AgentRegistry) (agent_type address : String) : AgentRegistry :=
  let inner := (alookup reg.agents agent_type).getD []
  ⟨dictSet reg.agents agent_type (dictSet inner address "idle")⟩

/-- The list of addresses registered for a type, in registration order. -/
def addresses (reg : AgentRegistry) (agent_type : String) : List String :=
  ((alookup reg.agents agent_type).getD []).map Prod.fst

/-- Modelled from the spec: the method AgentRegistry.get_agent is called by
the orchestrator and the gateway but is not defined in agent_registry.py.
Per the spec it returns one address by uniform random choice from the list
of addresses registered for the type, and null if the list is empty.  The
random draw is modelled by an arbitrary natural k reduced modulo the list
length, so that a uniformly distributed k induces the uniform choice. -/
def get_agent (reg : AgentRegistry) (agent_type : String) (k : Nat) : Option String :=
  (reg.addresses agent_type).get? (k % (reg.addresses agent_type).length)

end AgentRegistry

/-- Demo registry with two scout agents and a conductor. -/
def regDemo : AgentRegistry :=
  ((AgentRegistry.register ⟨[]⟩ "scout" "agent-a").register "scout" "agent-b").register
    "conductor" "agent-c"

/-! ## Messages (src/src/model/models.py) -/

inductive ThoughtType where
  | SUB_GOAL
  | USER_QUERY
  | RESOLVED
  | FAILED
  | ANSWER
deriving DecidableEq, Repr

structure ThoughtMsg where
  request_id : String
  type : ThoughtType
  content : String
  impressions : List String := []
  metadata : List (String × String) := []
deriving DecidableEq, Repr

/-! ## Shared memory (src/src/cognition/cognition.py) -/

/-- Embeds SharedMemory.clear_session: delete every key whose prefix is the
request id, except (when preserve) the key request_id:query. -/
def clear_session (mem : List (String × String)) (request_id : String)
    (preserve_query : Bool) : List (String × String) :=
  mem.filter (fun p =>
    !(p.1.startsWith request_id && !(preserve_query && p.1 == request_id ++ ":query")))

/-! ## Execution graph (src/src/orchestrator.py, GraphExecutionManager) -/

structure NodeDef where
  id : String
  type : String
deriving DecidableEq, Repr

/-- A parsed YAML plan.  The terminal_node field is an Option so that a plan
missing the key can be represented (reading it raises KeyError in Python).
The entry_nodes key is never read by GraphExecutionManager and is omitted. -/
structure PlanGraph where
  nodes : List NodeDef
  edges : List (String × String)
  terminal_node : Option String
deriving DecidableEq, Repr

structure GraphState where
  nodeList : List (String × NodeDef)
  terminal : String
  adj : List (String × List String)
  inDeg : List (String × Int)
  queue : List String
  running : List String
  completed : Nat
  outputs : List (String × List String)
  stepCounter : Nat
  edges : List (String × String)
deriving DecidableEq, Repr

/-- One step of the edge fold in GraphExecutionManager.__init__: append to
the adjacency list (a defaultdict, so an unknown source id is created
silently) and increment the in-degree of the target (a plain dict, so an
unknown target id raises KeyError, modelled as Except.error). -/
def applyEdge (st : List (String × List String) × List (String × Int))
    (e : String × String) :
    Except String (List (String × List String) × List (String × Int)) :=
  let adj' := dictSet st.1 e.1 ((alookup st.1 e.1).getD [] ++ [e.2])
  match alookup st.2 e.2 with
  | none => Except.error ("KeyError: " ++ e.2)
  | some d => Except.ok (adj', dictSet st.2 e.2 (d + 1))

/-- Embeds GraphExecutionManager.__init__.  No DAG check, no terminal
reachability check; the only failure modes are a missing terminal_node key
and an edge target absent from the node dict (both KeyError in Python). -/
def initGraph (g : PlanGraph) : Except String GraphState := do
  let terminal ← match g.terminal_node with
    | some t => Except.ok t
    | none => Except.error "KeyError: terminal_node"
  let nodesD := g.nodes.foldl (fun acc n => dictSet acc n.id n) []
  let inDeg0 : List (String × Int) := nodesD.map (fun p => (p.1, (0 : Int)))
  let st ← g.edges.foldlM applyEdge (([] : List (String × List String)), inDeg0)
  let queue := (st.2.filter (fun p => p.2 = 0)).map Prod.fst
  Except.ok
    { nodeList := nodesD
      terminal := terminal
      adj := st.1
      inDeg := st.2
      queue := queue
      running := []
      completed := 0
      outputs := []
      stepCounter := 0
      edges := g.edges }

/-- Embeds get_next_executable_node: pop the left end of the queue, add the
node id to the running set, bump step_counter, and look the node up.  (The
lookup cannot fail on states produced by initGraph, whose queue ids are node
dict keys.) -/
def getNextExecutableNode (g : GraphState) : Option NodeDef × GraphState :=
  match g.queue with
  | [] => (none, g)
  | n :: rest =>
    let g' := { g with
      stepCounter := g.stepCounter + 1
      queue := rest
      running := if n ∈ g.running then g.running else g.running ++ [n] }
    (alookup g.nodeList n, g')

/-- Embeds on_node_complete: discard the node from the running set, count it
completed, extend its outputs, decrement successors' in-degrees and enqueue
those that reach zero. -/
def onNodeComplete (g : GraphState) (nodeId : String) (outputKeys : List String) :
    GraphState :=
  let running' := g.running.filter (fun x => ¬ (x = nodeId))
  let outputs' := dictSet g.outputs nodeId ((alookup g.outputs nodeId).getD [] ++ outputKeys)
  let nbs := (alookup g.adj nodeId).getD []
  let step := fun (acc : List (String × Int) × List String) (nb : String) =>
    let d := (alookup acc.1 nb).getD 0 - 1
    (dictSet acc.1 nb d, if d = 0 then acc.2 ++ [nb] else acc.2)
  let folded := nbs.foldl step (g.inDeg, [])
  { g with
    running := running'
    completed := g.completed + 1
    outputs := outputs'
    inDeg := folded.1
    queue := g.queue ++ folded.2 }

/-- Embeds get_inputs_for_node: the concatenation of node_outputs of every
direct predecessor, in edge-declaration order. -/
def getInputsForNode (g : GraphState) (nodeId : String) : List String :=
  (((g.edges.filter (fun e => e.2 = nodeId)).map Prod.fst).map
    (fun d => (alookup g.outputs d).getD [])).flatten

def isComplete (g : GraphState) : Bool :=
  g.completed = g.nodeList.length

def hasStalled (g : GraphState) : Bool :=
  g.queue.isEmpty && g.running.isEmpty && !(isComplete g)

/-! ## Orchestrator (src/src/orchestrator.py, Orchestrator) -/

/-- Observable effects of the orchestrator.  A sendGoal event carries the
input key list whose Python str() is the AgentGoal content. -/
inductive Event where
  | sendGoal (addr : String) (request_id : String) (inputKeys : List String)
      (nodeId stepId : String)
  | warnNoAgent (agentType : String) (request_id : String)
  | sendReplan (addr : Option String) (request_id reason : String)
  | sendResponse (request_id : String) (content : Option String) (ty : Int)
  | logYamlError (request_id : String)
deriving DecidableEq, Repr

structure OrchState where
  graphs : List (String × GraphState)
  memory : List (String × String)
deriving DecidableEq, Repr

/-- The drain loop of execute_next_nodes.  The queue only shrinks during the
loop (nothing is enqueued), so fuel equal to the initial queue length plus
one reproduces the Python while-loop exactly. -/
def dispatchLoop (reg : AgentRegistry) (pick : Nat) (rid : String) :
    GraphState → Nat → GraphState × List Event
  | g, 0 => (g, [])
  | g, fuel + 1 =>
    match getNextExecutableNode g with
    | (none, g') => (g', [])
    | (some node, g') =>
      match AgentRegistry.get_agent reg node.type pick with
      | some addr =>
        let inputKeys := getInputsForNode g' node.id
        let ev := Event.sendGoal addr rid inputKeys node.id (toString g'.stepCounter)
        let rest := dispatchLoop reg pick rid g' fuel
        (rest.1, ev :: rest.2)
      | none =>
        let rest := dispatchLoop reg pick rid g' fuel
        (rest.1, Event.warnNoAgent node.type rid :: rest.2)

/-- The reason string sent with a ReplanRequest on stall. -/
def stallReason : String := "Graph execution stalled, possible cycle in plan."

/-- Embeds Orchestrator.execute_next_nodes: drain the ready queue, then, if
the graph has stalled, send a ReplanRequest to the conductor address from
the registry and clean the session preserving the query. -/
def executeNextNodes (reg : AgentRegistry) (pick : Nat) (st : OrchState)
    (rid : String) : OrchState × List Event :=
  match alookup st.graphs rid with
  | none => (st, [])
  | some g =>
    let res := dispatchLoop reg pick rid g (g.queue.length + 1)
    if hasStalled res.1 then
      ({ graphs := delKey st.graphs rid
         memory := clear_session st.memory rid true },
       res.2 ++ [Event.sendReplan (AgentRegistry.get_agent reg "conductor" pick) rid stallReason])
    else
      ({ st with graphs := dictSet st.graphs rid res.1 }, res.2)

/-- Embeds Orchestrator.handle_step_completion.  When the graph completes,
node_outputs[terminal][0] is read; on an empty output list Python raises
IndexError, modelled as Except.error. -/
def handleStepCompletion (reg : AgentRegistry) (pick : Nat) (st : OrchState)
    (rid nodeId : String) (impressions : List String) :
    Except String (OrchState × List Event) :=
  match alookup st.graphs rid with
  | none => Except.ok (st, [])
  | some g =>
    let g' := onNodeComplete g nodeId impressions
    let st' : OrchState := { st with graphs := dictSet st.graphs rid g' }
    if isComplete g' then
      match ((alookup g'.outputs g'.terminal).getD []).head? with
      | none => Except.error "IndexError: node_outputs[terminal][0]"
      | some finalKey =>
        let finalAnswer := alookup st'.memory finalKey
        Except.ok
          ({ graphs := delKey st'.graphs rid
             memory := clear_session st'.memory rid false },
           [Event.sendResponse rid finalAnswer (-1)])
    else
      Except.ok (executeNextNodes reg pick st' rid)

/-- Embeds Orchestrator.start_new_graph.  A YAML decode failure (plan =
none) is caught and only logged; a KeyError from GraphExecutionManager
construction is not caught and propagates (Except.error). -/
def startNewGraph (reg : AgentRegistry) (pick : Nat) (st : OrchState)
    (rid : String) (plan : Option PlanGraph) :
    Except String (OrchState × List Event) :=
  match plan with
  | none => Except.ok (st, [Event.logYamlError rid])
  | some p =>
    match initGraph p with
    | Except.error e => Except.error e
    | Except.ok g =>
      let st' : OrchState := { st with graphs := dictSet st.graphs rid g }
      Except.ok (executeNextNodes reg pick st' rid)

/-! ## Workers: reply contracts

External work (subprocess run, web search plus rendering, vector query,
LLM condense calls, json decoding) is passed in as oracle values; the
control flow around them is embedded from the source. -/

/-- Outcome of the subprocess.run call in pot.py: normal completion with an
exit code, subprocess.TimeoutExpired, or any other exception. -/
inductive RunResult where
  | finished (returncode : Int) (stdout stderr : String)
  | timedOut
  | excepted (msg : String)
deriving DecidableEq, Repr

/-- Embeds ProgramOfThoughtAgent.process_code_execution after the goal-type
guard: run the code, reply RESOLVED with stdout on exit code 0, otherwise
FAILED with stderr (or the timeout / error message); the Thought never
carries impressions. -/
def potProcess (rid : String) (metadata : List (String × String))
    (run : RunResult) : ThoughtMsg :=
  let md := dictSet metadata "goal_type" "task"
  match run with
  | RunResult.finished rc out err =>
    if rc = 0 then
      { request_id := rid, type := ThoughtType.RESOLVED, content := out,
        metadata := dictSet md "exit_code" (toString rc) }
    else
      { request_id := rid, type := ThoughtType.FAILED, content := err,
        metadata := dictSet md "exit_code" (toString rc) }
  | RunResult.timedOut =>
    { request_id := rid, type := ThoughtType.FAILED, content := "Execution timed out.",
      metadata := dictSet md "exit_code" "-1" }
  | RunResult.excepted e =>
    { request_id := rid, type := ThoughtType.FAILED, content := e,
      metadata := dictSet md "exit_code" "-1" }

/-- Embeds ScoutAgent.process_search_and_filter after the goal-type guard.
The whole search-render-filter pipeline is an oracle: ok carries the final
chunk list, error carries the exception message.  dumps models json.dumps. -/
def scoutProcess (mem : List (String × String)) (rid stepId : String)
    (metadata : List (String × String)) (web : Except String (List String))
    (dumps : List String → String) : List (String × String) × ThoughtMsg :=
  let failed := fun (e : String) =>
    (mem,
      ({ request_id := rid, type := ThoughtType.FAILED,
         content := "Scout agent failed with error: " ++ e,
         metadata := metadata } : ThoughtMsg))
  match alookup mem (rid ++ ":query") with
  | none => failed "Scout received empty search query."
  | some q =>
    if q = "" then failed "Scout received empty search query."
    else
      match web with
      | Except.error e => failed e
      | Except.ok finalChunks =>
        let key := rid ++ ":" ++ stepId ++ ":filtered_web_results"
        (dictSet mem key (dumps finalChunks),
          { request_id := rid, type := ThoughtType.RESOLVED,
            content := "Scout task completed.",
            impressions := [key],
            metadata := dictSet metadata "goal_type" "task" })

/-- Embeds RetrieveAgent.process_retrieve after the goal-type guard: the
query falls back to the goal content, an empty query raises, the vector
query is an oracle, and errors reply FAILED. -/
def retrieveProcess (mem : List (String × String)) (rid stepId nodeId : String)
    (content : String) (metadata : List (String × String))
    (results : Except String (List String)) (dumps : List String → String) :
    List (String × String) × ThoughtMsg :=
  let failed := fun (e : String) =>
    (mem,
      ({ request_id := rid, type := ThoughtType.FAILED,
         content := "Retrieve agent failed with error: " ++ e,
         metadata := metadata } : ThoughtMsg))
  let q := match alookup mem (rid ++ ":query") with
    | none => content
    | some "" => content
    | some q => q
  if q = "" then failed "Retrieve received empty query."
  else
    match results with
    | Except.error e => failed e
    | Except.ok texts =>
      let key := rid ++ ":" ++ stepId ++ ":retrieved_context"
      (dictSet mem key (dumps texts),
        { request_id := rid, type := ThoughtType.RESOLVED,
          content := "Retrieve task completed.",
          impressions := [key],
          metadata := [("goal_type", "task"), ("node_id", nodeId)] })

/-- Architect chunk size and overlap (architect.py tunables). -/
def ARCH_CHUNK_SIZE : Nat := 9000

def ARCH_CHUNK_OVERLAP : Nat := 300

def ARCH_CONTEXT_THRESHOLD : Nat := 15000

/-- Generic splitter loop shared by utils.split_text and the private
splitters of the architect and scout agents.  The Python while loop ends
because start grows by chunk_size - chunk_overlap each round; fuel larger
than the text length makes the recursion reproduce it exactly whenever
chunk_overlap < chunk_size. -/
def splitGo (cs : List Char) (size overlap : Nat) : Nat → Nat → List (List Char)
  | _, 0 => []
  | start, fuel + 1 =>
    if start < cs.length then
      ((cs.drop start).take size) :: splitGo cs size overlap (start + (size - overlap)) fuel
    else []

/-- Embeds split_text (src/webcrawler/app/utils/utils.py). -/
def split_text (t : String) (size overlap : Nat) : List String :=
  if t = "" then []
  else (splitGo t.toList size overlap 0 (t.toList.length + 1)).map List.asString

/-- Embeds ArchitectAgent._split_text_into_chunks, which fixes the tunables
CHUNK_SIZE = 9000 and CHUNK_OVERLAP = 300. -/
def architectSplitChunks (t : String) : List String :=
  if t = "" then []
  else (splitGo t.toList ARCH_CHUNK_SIZE ARCH_CHUNK_OVERLAP 0 (t.toList.length + 1)).map
    List.asString

/-- The per-chunk accumulation loop of ArchitectAgent.process_synthesis.
The condense oracle stands for the awaited _condense_context LLM calls. -/
def architectLoop (condense : String → String) :
    List String → List String → String → String
  | [], _, ctxt => ctxt
  | chunk :: rest, seen, ctxt =>
    if chunk ∈ seen then architectLoop condense rest seen ctxt
    else
      let seen' := chunk :: seen
      let candidate := ctxt ++ "\n\n" ++ chunk
      let pair :=
        if ARCH_CONTEXT_THRESHOLD < candidate.length then
          let c := condense ctxt
          (c, c ++ "\n\n" ++ chunk)
        else (ctxt, candidate)
      let candidate2 :=
        if ARCH_CONTEXT_THRESHOLD < pair.2.length then
          (pair.2.toList.take ARCH_CONTEXT_THRESHOLD).asString
        else pair.2
      architectLoop condense rest seen' candidate2

/-- The try block of ArchitectAgent.process_synthesis.  inputKeys is the
ast.literal_eval result (none on a parse error), parse models json.loads of
the stored document list, condense the LLM condense step.  Every raise in
the source is an Except.error here. -/
def architectTry (mem : List (String × String)) (rid : String)
    (inputKeys : Option (List String)) (parse : String → Option (List String))
    (condense : String → String) : Except String String := do
  let keys ← match inputKeys with
    | none => Except.error "literal_eval failed"
    | some ks => Except.ok ks
  if hk : keys = [] then Except.error "No input keys provided."
  else do
    let raw := alookup mem (keys.head hk)
    let cleanTexts ← match raw with
      | none => Except.ok ([] : List String)
      | some "" => Except.ok ([] : List String)
      | some r => match parse r with
        | none => Except.error "json decode failed"
        | some docs => Except.ok docs
    let _ ← match alookup mem (rid ++ ":query") with
      | none => Except.error "Original query missing."
      | some "" => Except.error "Original query missing."
      | some q => Except.ok q
    if cleanTexts = [] then Except.error "No documents found."
    else do
      let fullStream := String.intercalate "\n\n--- NEW DOCUMENT ---\n\n" cleanTexts
      let chunks := architectSplitChunks fullStream
      let running := architectLoop condense chunks [] ""
      let running2 :=
        if ARCH_CONTEXT_THRESHOLD < running.length then condense running else running
      Except.ok running2.trim

/-- Embeds the tail of ArchitectAgent.process_synthesis: whatever the try
block did, the agent stores a final_answer impression and replies RESOLVED
(the source comment reads: always respond, never abort). -/
def architectProcess (mem : List (String × String)) (rid stepId nodeId : String)
    (inputKeys : Option (List String)) (parse : String → Option (List String))
    (condense : String → String) : List (String × String) × ThoughtMsg :=
  let synthesized := match architectTry mem rid inputKeys parse condense with
    | Except.ok s => s
    | Except.error _ => "Insufficient information gathered."
  let key := rid ++ ":" ++ stepId ++ ":final_answer"
  (dictSet mem key synthesized,
    { request_id := rid, type := ThoughtType.RESOLVED,
      content := "Architect completed (best effort).",
      impressions := [key],
      metadata := [("goal_type", "task"), ("node_id", nodeId)] })

/-! ## URL normalization (crawler.py and crawling_ledger.py, via urllib)

Both _normalize_url bodies read urlparse(url) and build
scheme://netloc path, then rstrip slashes.  The model follows CPython
urlparse for the fields these functions read: the text before the first
colon becomes the lowercased scheme when the first character of the URL is
an ASCII letter and every prefix character is a scheme character; after //
the netloc runs until a slash, question mark or hash; the fragment (after
the first hash) and the query (after the first question mark) are split
off the remainder; finally, for a scheme in uses_params, the params (the
part of the last path segment after its first semicolon) are split off the
path. -/

def isSchemeChar (c : Char) : Bool :=
  c.isAlphanum || c = '+' || c = '-' || c = '.'

def splitScheme (cs : List Char) : List Char × List Char :=
  if (cs.takeWhile (fun c => !(c = ':'))).length < cs.length ∧
      ¬ (cs.takeWhile (fun c => !(c = ':'))) = [] ∧
      ((cs.takeWhile (fun c => !(c = ':'))).headD ' ').isAlpha = true ∧
      (cs.takeWhile (fun c => !(c = ':'))).all isSchemeChar = true then
    ((cs.takeWhile (fun c => !(c = ':'))).map Char.toLower,
      cs.drop ((cs.takeWhile (fun c => !(c = ':'))).length + 1))
  else ([], cs)

def netlocDelim (c : Char) : Bool := c = '/' || c = '?' || c = '#'

def splitNetloc (cs : List Char) : List Char × List Char :=
  (cs.takeWhile (fun c => !(netlocDelim c)), cs.dropWhile (fun c => !(netlocDelim c)))

/-- The netloc-splitting step applies only after a double slash. -/
def netlocPhase (rest : List Char) : List Char × List Char :=
  if rest.take 2 = ['/', '/'] then splitNetloc (rest.drop 2) else ([], rest)

/-- The path left after removing the fragment and then the query. -/
def pathPhase (rest : List Char) : List Char :=
  (rest.takeWhile (fun c => !(c = '#'))).takeWhile (fun c => !(c = '?'))

/-- The urllib uses_params scheme list: urlparse splits params off the
path only for these schemes. -/
def usesParams : List String :=
  ["", "ftp", "hdl", "prospero", "http", "imap", "https", "shttp", "rtsp",
   "rtspu", "sip", "sips", "mms", "sftp", "tel"]

/-- CPython _splitparams on the path: when the path has a slash, cut at the
first semicolon of the last segment (keep the whole path if that segment
has none); otherwise cut at the first semicolon. -/
def splitParamsPath (p : List Char) : List Char :=
  if '/' ∈ p then
    let lastSeg := (p.reverse.takeWhile (fun c => !(c = '/'))).reverse
    if ';' ∈ lastSeg then
      p.take (p.length - lastSeg.length) ++ lastSeg.takeWhile (fun c => !(c = ';'))
    else p
  else p.takeWhile (fun c => !(c = ';'))

/-- The params step of urlparse: applied only when the scheme uses params
and the path contains a semicolon. -/
def paramsPhase (scheme : String) (p : List Char) : List Char :=
  if scheme ∈ usesParams ∧ ';' ∈ p then splitParamsPath p else p

/-- The urlparse fields read by the normalizers: scheme, netloc, path
(with params already split off the path, as ParseResult.path has). -/
def urlparse3 (url : String) : String × String × String :=
  ((splitScheme url.toList).1.asString,
   (netlocPhase (splitScheme url.toList).2).1.asString,
   (paramsPhase (splitScheme url.toList).1.asString
     (pathPhase (netlocPhase (splitScheme url.toList).2).2)).asString)

/-- Python str.rstrip with a slash argument: remove every trailing slash. -/
def rstripSlash (s : String) : String :=
  ((s.toList.reverse.dropWhile (fun c => c = '/')).reverse).asString

/-- Embeds Crawler._normalize_url. -/
def crawlerNormalizeUrl (url : String) : String :=
  rstripSlash ((urlparse3 url).1 ++ "://" ++ (urlparse3 url).2.1 ++ (urlparse3 url).2.2)

/-- Embeds CrawlingLedger._normalize_url (its body is textually identical
to the crawler's). -/
def ledgerNormalizeUrl (url : String) : String :=
  rstripSlash ((urlparse3 url).1 ++ "://" ++ (urlparse3 url).2.1 ++ (urlparse3 url).2.2)

/-- Embeds the _get_domain helpers: urlparse netloc, lowercased. -/
def crawlDomain (url : String) : String :=
  ((urlparse3 url).2.1.toList.map Char.toLower).asString

/-! ## Crawler chunk stores (src/webcrawler/app/crawler.py, process_url)

State components: the Redis hash crawler:chunk_refcount, the vector-store
document ids, the per-URL chunk sets (Redis sets keyed by
crawler:url_chunks: followed by the url hash), and the crawling-ledger
records.  Ledger record keys are crawled: followed by sha256(url); the
model keys records by the url itself (the digest is injective), and the
wall-clock last_crawled field is outside the model. -/

structure CrawlRecord where
  url : String
  domain : String
  status : String
  contentHash : Option String := none
  error : Option String := none
deriving DecidableEq, Repr

structure CrawlState where
  refcount : List (String × Int)
  docs : List String
  urlChunks : List (String × List String)
  records : List (String × CrawlRecord)
deriving DecidableEq, Repr

/-- The stored refcount of a chunk hash; a missing field reads as 0, as
with Redis HINCRBY. -/
def rcOf (s : CrawlState) (c : String) : Int := (alookup s.refcount c).getD 0

/-- Embeds ledger.hincrby: store and return the adjusted value. -/
def hincrby (s : CrawlState) (c : String) (d : Int) : Int × CrawlState :=
  let n := rcOf s c + d
  (n, { s with refcount := dictSet s.refcount c n })

/-- Embeds ledger.hdel on the refcount hash. -/
def hdelRc (s : CrawlState) (c : String) : CrawlState :=
  { s with refcount := delKey s.refcount c }

/-- Embeds memory.delete for one document id. -/
def deleteDoc (s : CrawlState) (i : String) : CrawlState :=
  { s with docs := s.docs.filter (fun x => !(x = i)) }

/-- Embeds memory.upsert at the membership level: existing ids are
replaced, new ids appear. -/
def upsertDocs (s : CrawlState) (ids : List String) : CrawlState :=
  { s with docs := s.docs ++ ids.filter (fun i => !(i ∈ s.docs)) }

/-- The vector-store id derived from a chunk hash (chunk_ prefix). -/
def docId (c : String) : String := "chunk_" ++ c

/-- One turn of the removal loop: decrement the refcount; if the new value
is at most 0, delete the chunk document and the refcount entry. -/
def removeChunkStep (s : CrawlState) (c : String) : CrawlState :=
  let r := hincrby s c (-1)
  if r.1 ≤ 0 then hdelRc (deleteDoc r.2 (docId c)) c else r.2

/-- One turn of the addition loop over the chunk list: skip hashes outside
chunks_to_add; otherwise increment the refcount and, exactly when the new
value is 1, append the document id to the upsert batch. -/
def addChunkStep (h : String → String) (old newHashes : List String)
    (acc : CrawlState × List String) (chunk : String) : CrawlState × List String :=
  let c := h chunk
  if !(newHashes.contains c && !(old.contains c)) then acc
  else
    let r := hincrby acc.1 c 1
    if r.1 = 1 then (r.2, acc.2 ++ [docId c]) else (r.2, acc.2)

/-- Embeds CrawlingLedger.get_content_hash (hget of a possibly missing
field on a possibly missing record). -/
def getContentHash (s : CrawlState) (url : String) : Option String :=
  match alookup s.records url with
  | none => none
  | some r => r.contentHash

/-- Embeds CrawlingLedger.mark_visited via _update_status: url, domain,
status and content_hash are written; etag and error are None and filtered
out of the mapping, so an old error field survives the hset merge. -/
def markVisited (s : CrawlState) (url : String) (contentHash : String) : CrawlState :=
  let rec0 : CrawlRecord := match alookup s.records url with
    | some r => r
    | none => { url := url, domain := crawlDomain url, status := "" }
  let r' : CrawlRecord :=
    { rec0 with url := url, domain := crawlDomain url, status := "visited",
                contentHash := some contentHash }
  { s with records := dictSet s.records url r' }

def CHUNK_SIZE : Nat := 1000

def CHUNK_OVERLAP : Nat := 200

/-- Splitting a character list at whitespace (pieces in order, empties for
runs, filtered by the caller). -/
def splitWsGo : List Char → List Char → List (List Char)
  | [], acc => [acc.reverse]
  | c :: rest, acc =>
    if c.isWhitespace then acc.reverse :: splitWsGo rest []
    else splitWsGo rest (c :: acc)

/-- Python " ".join(text.split()): collapse whitespace runs to single
spaces and strip the ends. -/
def collapseWs (t : String) : String :=
  String.intercalate " "
    (((splitWsGo t.toList []).map List.asString).filter (fun x => !(x = "")))

/-- Embeds Crawler.process_url from the whitespace collapse through
mark_visited: compare the new content hash against the stored one and
return with no chunk work when equal; otherwise diff the chunk hash set
against the stored per-URL set, run the refcount-managed removal and
addition loops, batch-upsert the fresh documents, rewrite the per-URL set,
and mark the URL visited.  h stands for the sha256 hex digest; the steps
before this point (freshness gate, claim lock, fetch, extraction) return
early without touching these stores. -/
def processUrlText (h : String → String) (s : CrawlState) (url rawText : String) :
    CrawlState :=
  let text := collapseWs rawText
  let fullHash := h text
  if getContentHash s url = some fullHash then
    markVisited s url fullHash
  else
    let urlKey := "crawler:url_chunks:" ++ h url
    let old := (alookup s.urlChunks urlKey).getD []
    let chunks := split_text text CHUNK_SIZE CHUNK_OVERLAP
    let newHashes := chunks.map h
    let toRemove := old.filter (fun c => !(newHashes.contains c))
    let s1 := toRemove.foldl removeChunkStep s
    let folded := chunks.foldl (addChunkStep h old newHashes) (s1, [])
    let s2 := if folded.2.isEmpty then folded.1 else upsertDocs folded.1 folded.2
    let newSet := newHashes.dedup
    let chunkSets :=
      if newSet.isEmpty then delKey s2.urlChunks urlKey
      else dictSet (delKey s2.urlChunks urlKey) urlKey newSet
    let s3 := { s2 with urlChunks := chunkSets }
    markVisited s3 url fullHash

/-- A crawl state that already visited one url with the given content. -/
def visitedCrawl : CrawlState :=
  { refcount := [], docs := [], urlChunks := [],
    records := [("http://a.com/x",
      { url := "http://a.com/x", domain := "a.com", status := "visited",
        contentHash := some "hello world" })] }

/-! ## Spec-side validity predicate and demo objects -/

/-- Written to the spec's words for the C3 comparison: a plan graph is a
DAG iff repeatedly peeling nodes that have no incoming edge from a
remaining node consumes every node. -/
def peelAcyclic : List String → List (String × String) → Nat → Bool
  | [], _, _ => true
  | _, _, 0 => false
  | ids, edges, fuel + 1 =>
    let ready := ids.filter (fun i => !(edges.any (fun e => e.2 = i && e.1 ∈ ids)))
    if ready.isEmpty then false
    else peelAcyclic (ids.filter (fun i => !(i ∈ ready))) edges fuel

/-- Written to the spec's words: the DAG property of a plan. -/
def isAcyclicB (p : PlanGraph) : Bool :=
  peelAcyclic (p.nodes.map NodeDef.id) p.edges (p.nodes.length + 1)

/-- A one-node plan whose node type has no registered agent in regEmpty. -/
def planSingleScout : PlanGraph :=
  { nodes := [{ id := "n1", type := "scout" }], edges := [], terminal_node := some "n1" }

/-- The two-node cyclic plan from spec scenario S2. -/
def planCyc : PlanGraph :=
  { nodes := [{ id := "a", type := "scout" }, { id := "b", type := "scout" }],
    edges := [("a", "b"), ("b", "a")], terminal_node := some "a" }

/-- A one-node plan whose single (terminal) node is a compute node. -/
def planSingleCompute : PlanGraph :=
  { nodes := [{ id := "n1", type := "compute" }], edges := [], terminal_node := some "n1" }

deriving instance DecidableEq for Except

def regEmpty : AgentRegistry := ⟨[]⟩

def emptyOrch : OrchState := { graphs := [], memory := [] }

def emptyGraphState : GraphState :=
  { nodeList := [], terminal := "", adj := [], inDeg := [], queue := [],
    running := [], completed := 0, outputs := [], stepCounter := 0, edges := [] }

/-- The graph state built by initGraph from the cyclic plan. -/
def gCyc : GraphState := (initGraph planCyc).toOption.getD emptyGraphState

/-- A stalled-scenario orchestrator state: the cyclic graph is active and
the session holds the query and one impression. -/
def stallDemo : OrchState :=
  { graphs := [("r1", gCyc)],
    memory := [("r1:query", "what is love"), ("r1:3:x", "v"), ("other", "w")] }

/-- The graph state built by initGraph from the one-node scout plan. -/
def gScoutW : GraphState := (initGraph planSingleScout).toOption.getD emptyGraphState

/-- A registry holding one compute agent. -/
def regCompute : AgentRegistry := AgentRegistry.register ⟨[]⟩ "compute" "agent-k"

/-- The Thought the compute worker sends for a run of print(2+2): exit code
0, stdout 4 and a newline; the source never sets impressions. -/
def potThoughtDemo : ThoughtMsg :=
  potProcess "r1" [("node_id", "n1"), ("step_id", "1")] (RunResult.finished 0 "4\n" "")

/-- Orchestrator state after starting the one-compute-node plan. -/
def computeOrch1 : OrchState :=
  (((startNewGraph regCompute 0
      { graphs := [], memory := [("r1:query", "What is 2+2?")] } "r1"
      (some planSingleCompute)).toOption).map Prod.fst).getD emptyOrch

/-! # Theorems -/

theorem alookup_dictSet_self {α β : Type} [DecidableEq α]
    (l : List (α × β)) (k : α) (v : β) : alookup (dictSet l k v) k = some v := by
  induction l with
  | nil => simp [dictSet, alookup]
  | cons p rest ih =>
    by_cases h : p.1 = k
    · simp [dictSet, h, alookup]
    · simp [dictSet, h, alookup, ih]

theorem alookup_delKey_self {α β : Type} [DecidableEq α]
    (l : List (α × β)) (k : α) : alookup (delKey l k) k = none := by
  induction l with
  | nil => simp [delKey, alookup]
  | cons p rest ih =>
    by_cases h : p.1 = k
    · simpa [delKey, h] using ih
    · simpa [delKey, h, alookup] using ih

theorem mem_keys_dictSet {α β : Type} [DecidableEq α]
    (l : List (α × β)) (k : α) (v : β) : k ∈ (dictSet l k v).map Prod.fst := by
  induction l with
  | nil => simp [dictSet]
  | cons p rest ih =>
    by_cases h : p.1 = k
    · simp [dictSet, h]
    · simpa [dictSet, h] using Or.inr ih

/-- C1: for every agent type, get_agent returns one address chosen by a
uniform random draw from the list of addresses registered for that type
(the draw index k reduced modulo the list length selects each list position
for exactly the indices congruent to it, so a uniform k induces the uniform
choice), and it returns null (none) when no address is registered.
Addresses put into the registry by register are retrievable.  The body of
get_agent is modelled from the spec because the method is absent from
agent_registry.py although the orchestrator and the gateway call it. -/
theorem agent_registry_get_agent_spec (reg : AgentRegistry) (t : String) (k : Nat) :
    (AgentRegistry.addresses reg t = [] → AgentRegistry.get_agent reg t k = none) ∧
    (AgentRegistry.addresses reg t ≠ [] →
      ∃ a, AgentRegistry.get_agent reg t k = some a ∧ a ∈ AgentRegistry.addresses reg t) ∧
    (∀ i (h : i < (AgentRegistry.addresses reg t).length),
      AgentRegistry.get_agent reg t i = some ((AgentRegistry.addresses reg t).get ⟨i, h⟩)) ∧
    (∀ a, a ∈ AgentRegistry.addresses (AgentRegistry.register reg t a) t) := by
  refine ⟨?_, ?_, ?_, ?_⟩
  · intro h
    simp [AgentRegistry.get_agent, h]
  · intro h
    have hlen : 0 < (AgentRegistry.addresses reg t).length := List.length_pos.mpr h
    have hm : k % (AgentRegistry.addresses reg t).length <
        (AgentRegistry.addresses reg t).length := Nat.mod_lt _ hlen
    refine ⟨(AgentRegistry.addresses reg t).get ⟨_, hm⟩, ?_, List.get_mem _ _ _⟩
    simp [AgentRegistry.get_agent, List.get?_eq_get hm]
  · intro i h
    have hmod : i % (AgentRegistry.addresses reg t).length = i := Nat.mod_eq_of_lt h
    simp [AgentRegistry.get_agent, hmod, List.get?_eq_get h]
  · intro a
    have h1 : alookup (AgentRegistry.register reg t a).agents t =
        some (dictSet ((alookup reg.agents t).getD []) a "idle") := by
      show alookup (dictSet reg.agents t _) t = _
      rw [alookup_dictSet_self]
    unfold AgentRegistry.addresses
    rw [h1]
    exact mem_keys_dictSet _ _ _

/-- Concrete witness for agent_registry_get_agent_spec: a registry holding
two scout addresses; draw index 3 selects the second one. -/
theorem agent_registry_get_agent_spec_witness :
    (AgentRegistry.addresses regDemo "scout" ≠ [] ∧
      ∃ a, AgentRegistry.get_agent regDemo "scout" 3 = some a ∧
        a ∈ AgentRegistry.addresses regDemo "scout") ∧
    AgentRegistry.get_agent regDemo "scout" 3 = some "agent-b" :=
  ⟨⟨by decide, (agent_registry_get_agent_spec regDemo "scout" 3).2.1 (by decide)⟩,
    by decide⟩

/-- C2 counterexample: dispatching the one-node scout plan against an empty
registry.  The claim says the node is not moved into the running set and
stays at the front of the execution queue when the registry lookup fails;
the code moves it into running on dequeue, before the lookup, and never
re-enqueues it: after the tick the queue is empty, running holds n1, and no
AgentGoal was sent. -/
theorem dispatch_no_agent_counterexample :
    ((startNewGraph regEmpty 0 emptyOrch "r1" (some planSingleScout)).toOption.bind
        (fun r => alookup r.1.graphs "r1")).map (fun g => (g.queue, g.running)) =
      some ([], ["n1"]) ∧
    (startNewGraph regEmpty 0 emptyOrch "r1" (some planSingleScout)).toOption.map
        (fun r => r.2) = some [Event.warnNoAgent "scout" "r1"] := by
  decide

/-- C2 amended: on a dispatch tick, a dequeued node whose agent type has no
registered address is moved into the running set anyway (the move happens
on dequeue, before the registry lookup), the send is skipped (only a
warning is logged), and the node is not re-enqueued, so it is not re-tried
on a later tick. -/
theorem dispatch_no_agent_amended (reg : AgentRegistry) (pick : Nat) (rid : String)
    (g : GraphState) (n : NodeDef)
    (hq : g.queue = [n.id]) (hn : alookup g.nodeList n.id = some n)
    (hreg : AgentRegistry.get_agent reg n.type pick = none) :
    n.id ∈ (dispatchLoop reg pick rid g (g.queue.length + 1)).1.running ∧
    (dispatchLoop reg pick rid g (g.queue.length + 1)).1.queue = [] ∧
    (dispatchLoop reg pick rid g (g.queue.length + 1)).2 =
      [Event.warnNoAgent n.type rid] := by
  have h2 : g.queue.length + 1 = 2 := by rw [hq]; rfl
  rw [h2]
  simp only [dispatchLoop, getNextExecutableNode, hq, hn, hreg]
  by_cases hmem : n.id ∈ g.running <;> simp [hmem]

/-- Witness for dispatch_no_agent_amended at the concrete one-node state. -/
theorem dispatch_no_agent_amended_witness :
    (gScoutW.queue = ["n1"] ∧
      alookup gScoutW.nodeList "n1" = some { id := "n1", type := "scout" } ∧
      AgentRegistry.get_agent regEmpty "scout" 0 = none) ∧
    "n1" ∈ (dispatchLoop regEmpty 0 "r1" gScoutW (gScoutW.queue.length + 1)).1.running :=
  ⟨⟨by decide, by decide, by decide⟩,
    (dispatch_no_agent_amended regEmpty 0 "r1" gScoutW { id := "n1", type := "scout" }
      (by decide) (by decide) (by decide)).1⟩

theorem alookup_isSome_iff_mem_keys {α β : Type} [DecidableEq α]
    (l : List (α × β)) (k : α) :
    (alookup l k).isSome = true ↔ k ∈ l.map Prod.fst := by
  induction l with
  | nil => simp [alookup]
  | cons p rest ih =>
    by_cases h : p.1 = k
    · simp [alookup, h]
    · simp [alookup, h, ih, Ne.symm h]

theorem mem_keys_dictSet_iff {α β : Type} [DecidableEq α]
    (l : List (α × β)) (k k' : α) (v : β) :
    k' ∈ (dictSet l k v).map Prod.fst ↔ k' ∈ l.map Prod.fst ∨ k' = k := by
  induction l with
  | nil => simp [dictSet]
  | cons p rest ih =>
    by_cases h : p.1 = k
    · subst h
      simp [dictSet]
      tauto
    · simp [dictSet, h, ih]
      tauto

theorem except_bind_ok {ε α β : Type} (a : α) (f : α → Except ε β) :
    ((Except.ok a : Except ε α) >>= f) = f a := rfl

theorem except_bind_error {ε α β : Type} (e : ε) (f : α → Except ε β) :
    ((Except.error e : Except ε α) >>= f) = Except.error e := rfl

theorem except_isOk_ok {ε α : Type} (a : α) : (Except.ok a : Except ε α).isOk = true := rfl

theorem except_isOk_error {ε α : Type} (e : ε) :
    (Except.error e : Except ε α).isOk = false := rfl

theorem foldlM_applyEdge_ok_iff (edges : List (String × String))
    (adj : List (String × List String)) (deg : List (String × Int)) :
    (edges.foldlM applyEdge (adj, deg)).isOk = true ↔
      ∀ e ∈ edges, e.2 ∈ deg.map Prod.fst := by
  induction edges generalizing adj deg with
  | nil =>
    constructor
    · intro _ e he
      exact absurd he (List.not_mem_nil e)
    · intro _
      rfl
  | cons e rest ih =>
    rw [List.foldlM_cons]
    cases hl : alookup deg e.2 with
    | none =>
      have hmem : ¬ e.2 ∈ deg.map Prod.fst := by
        rw [← alookup_isSome_iff_mem_keys, hl]
        simp
      have hstep : applyEdge (adj, deg) e = Except.error ("KeyError: " ++ e.2) := by
        simp only [applyEdge, hl]
      rw [hstep, except_bind_error, except_isOk_error]
      constructor
      · intro h
        exact absurd h (by simp)
      · intro hall
        exact absurd (hall e (List.mem_cons_self e rest)) hmem
    | some d =>
      have hmem : e.2 ∈ deg.map Prod.fst := by
        rw [← alookup_isSome_iff_mem_keys, hl]; rfl
      have hstep : applyEdge (adj, deg) e = Except.ok
          (dictSet adj e.1 ((alookup adj e.1).getD [] ++ [e.2]),
            dictSet deg e.2 (d + 1)) := by
        simp only [applyEdge, hl]
      rw [hstep, except_bind_ok, ih]
      constructor
      · intro h e' he'
        rcases List.mem_cons.mp he' with h1 | h1
        · subst h1; exact hmem
        · have h2 := h e' h1
          rw [mem_keys_dictSet_iff] at h2
          rcases h2 with h3 | h3
          · exact h3
          · rw [h3]; exact hmem
      · intro h e' he'
        rw [mem_keys_dictSet_iff]
        left
        exact h e' (List.mem_cons_of_mem _ he')

theorem mem_keys_foldl_nodes (ns : List NodeDef) (acc : List (String × NodeDef))
    (k : String) :
    k ∈ (ns.foldl (fun acc n => dictSet acc n.id n) acc).map Prod.fst ↔
      k ∈ acc.map Prod.fst ∨ k ∈ ns.map NodeDef.id := by
  induction ns generalizing acc with
  | nil => simp
  | cons n rest ih =>
    simp only [List.foldl_cons, ih, mem_keys_dictSet_iff, List.map_cons, List.mem_cons]
    tauto

/-- C3 counterexample: the cyclic two-node plan (edges a to b and b to a) is
not a DAG, yet GraphExecutionManager construction succeeds and
start_new_graph proceeds straight to execution, which stalls and takes the
ReplanRequest path rather than any parse-time rejection or FAILED-thought
error. -/
theorem plan_validation_counterexample :
    isAcyclicB planCyc = false ∧
    (initGraph planCyc).isOk = true ∧
    (startNewGraph regDemo 0 emptyOrch "r1" (some planCyc)).toOption.map
        (fun r => r.2) =
      some [Event.sendReplan (some "agent-c") "r1" stallReason] := by
  decide

/-- C3 amended: plan construction performs no DAG, terminal-reachability or
edge validation beyond Python KeyError mechanics: it fails exactly when the
terminal_node key is missing or some edge target id is not a declared node
id (an unknown edge source id is accepted silently, and a cyclic plan is
accepted); a YAML decode failure is caught and only logged, producing no
error and no re-plan. -/
theorem plan_validation_amended (p : PlanGraph) :
    ((initGraph p).isOk = false ↔
      p.terminal_node = none ∨ ∃ e ∈ p.edges, ¬ e.2 ∈ p.nodes.map NodeDef.id) ∧
    (∀ (reg : AgentRegistry) (pick : Nat) (st : OrchState) (rid : String),
      startNewGraph reg pick st rid none = Except.ok (st, [Event.logYamlError rid])) := by
  constructor
  · cases ht : p.terminal_node with
    | none =>
      have hval : (initGraph p).isOk = false := by
        simp only [initGraph, ht, except_bind_error, except_isOk_error]
      rw [hval]
      simp
    | some t =>
      have hkeys : ∀ k, k ∈ ((p.nodes.foldl (fun acc n => dictSet acc n.id n)
            []).map (fun p => (p.1, (0 : Int)))).map Prod.fst ↔
          k ∈ p.nodes.map NodeDef.id := by
        intro k
        rw [List.map_map]
        have : (Prod.fst ∘ fun p : String × NodeDef => (p.1, (0 : Int))) = Prod.fst := rfl
        rw [this, mem_keys_foldl_nodes]
        simp
      have hfold := foldlM_applyEdge_ok_iff p.edges []
        ((p.nodes.foldl (fun acc n => dictSet acc n.id n) []).map
          (fun p => (p.1, (0 : Int))))
      cases hres : p.edges.foldlM applyEdge
          (([] : List (String × List String)),
            (p.nodes.foldl (fun acc n => dictSet acc n.id n) []).map
              (fun p => (p.1, (0 : Int)))) with
      | error msg =>
        have hnotall : ¬ ∀ e ∈ p.edges, e.2 ∈ p.nodes.map NodeDef.id := by
          intro hall
          have hok2 : (p.edges.foldlM applyEdge
              (([] : List (String × List String)),
                (p.nodes.foldl (fun acc n => dictSet acc n.id n) []).map
                  (fun p => (p.1, (0 : Int))))).isOk = true :=
            hfold.mpr (fun e he => (hkeys e.2).mpr (hall e he))
          rw [hres] at hok2
          exact absurd hok2 (by rw [except_isOk_error]; simp)
        constructor
        · intro _
          right
          push_neg at hnotall
          obtain ⟨e, he, hmem⟩ := hnotall
          exact ⟨e, he, hmem⟩
        · intro _
          simp only [initGraph, ht, except_bind_ok, hres, except_bind_error,
            except_isOk_error]
      | ok stpair =>
        have hall : ∀ e ∈ p.edges, e.2 ∈ p.nodes.map NodeDef.id := by
          have hok2 : (p.edges.foldlM applyEdge
              (([] : List (String × List String)),
                (p.nodes.foldl (fun acc n => dictSet acc n.id n) []).map
                  (fun p => (p.1, (0 : Int))))).isOk = true := by
            rw [hres]; rfl
          intro e he
          exact (hkeys e.2).mp ((hfold.mp hok2) e he)
        constructor
        · intro hbad
          exfalso
          have hok : (initGraph p).isOk = true := by
            simp only [initGraph, ht, except_bind_ok, hres, except_isOk_ok]
          rw [hok] at hbad
          exact absurd hbad (by simp)
        · rintro (h1 | ⟨e, he, hmem⟩)
          · exact absurd h1 (by simp)
          · exact absurd (hall e he) hmem
  · intro reg pick st rid
    rfl

/-- C4 counterexample: an error during Architect processing (an empty input
key list raises the ValueError no input keys provided) still produces a
RESOLVED reply, not a FAILED one: the source catches every exception and
always responds RESOLVED with a best-effort content. -/
theorem worker_error_reply_counterexample :
    architectTry [] "r1" (some []) (fun _ => none) (fun s => s) =
      Except.error "No input keys provided." ∧
    (architectProcess [] "r1" "2" "n1" (some []) (fun _ => none) (fun s => s)).2.type =
      ThoughtType.RESOLVED ∧
    (architectProcess [] "r1" "2" "n1" (some []) (fun _ => none) (fun s => s)).2.content =
      "Architect completed (best effort)." := by
  decide

/-- C4 amended: the Scout, Retrieve and Compute workers reply FAILED with
the reason on any processing error, but the Architect catches all errors
and always replies RESOLVED (storing a best-effort final answer). -/
theorem worker_error_reply_amended
    (mem : List (String × String)) (rid stepId nodeId content : String)
    (metadata : List (String × String)) (e msg : String)
    (web results : Except String (List String)) (dumps : List String → String)
    (rc : Int) (out err : String)
    (inputKeys : Option (List String)) (parse : String → Option (List String))
    (condense : String → String)
    (hweb : web = Except.error e) (hres : results = Except.error e)
    (hrc : ¬ rc = 0) :
    (scoutProcess mem rid stepId metadata web dumps).2.type = ThoughtType.FAILED ∧
    (retrieveProcess mem rid stepId nodeId content metadata results dumps).2.type =
      ThoughtType.FAILED ∧
    (potProcess rid metadata (RunResult.finished rc out err)).type = ThoughtType.FAILED ∧
    (potProcess rid metadata (RunResult.finished rc out err)).content = err ∧
    (potProcess rid metadata RunResult.timedOut).type = ThoughtType.FAILED ∧
    (potProcess rid metadata (RunResult.excepted msg)).type = ThoughtType.FAILED ∧
    (architectProcess mem rid stepId nodeId inputKeys parse condense).2.type =
      ThoughtType.RESOLVED := by
  refine ⟨?_, ?_, ?_, ?_, rfl, rfl, rfl⟩
  · cases hq : alookup mem (rid ++ ":query") with
    | none => simp [scoutProcess, hq]
    | some q =>
      by_cases hqe : q = "" <;> simp [scoutProcess, hq, hqe, hweb]
  · cases hq : alookup mem (rid ++ ":query") with
    | none =>
      by_cases hce : content = "" <;> simp [retrieveProcess, hq, hce, hres]
    | some q =>
      by_cases hqe : q = ""
      · subst hqe
        by_cases hce : content = "" <;> simp [retrieveProcess, hq, hce, hres]
      · simp [retrieveProcess, hq, hqe, hres]
  · simp [potProcess, hrc]
  · simp [potProcess, hrc]

/-- Witness for worker_error_reply_amended at a concrete failing transport
error and a non-zero exit code. -/
theorem worker_error_reply_amended_witness :
    ((Except.error "boom" : Except String (List String)) = Except.error "boom" ∧
      ¬ (1 : Int) = 0) ∧
    (scoutProcess [] "r1" "2" [] (Except.error "boom")
      (fun _ => "")).2.type = ThoughtType.FAILED :=
  ⟨⟨rfl, by decide⟩,
    (worker_error_reply_amended [] "r1" "2" "n1" "" [] "boom" "m"
      (Except.error "boom") (Except.error "boom") (fun _ => "") 1 "" "x"
      none (fun _ => none) (fun s => s) rfl rfl (by decide)).1⟩

/-- C5 (code bug): the compute worker replies RESOLVED without impressions,
so when its node is the terminal of the graph, node_outputs of that node is
still empty at the moment the node leaves the running set, and
handle_step_completion raises IndexError reading node_outputs[terminal][0]
instead of streaming the result back. -/
theorem compute_terminal_empty_outputs_bug :
    potThoughtDemo.type = ThoughtType.RESOLVED ∧
    potThoughtDemo.impressions = [] ∧
    (alookup computeOrch1.graphs "r1").map (fun g => g.running) = some ["n1"] ∧
    ((alookup computeOrch1.graphs "r1").map
      (fun g => (onNodeComplete g "n1" potThoughtDemo.impressions).running)) =
      some [] ∧
    ((alookup computeOrch1.graphs "r1").map
      (fun g => alookup (onNodeComplete g "n1" potThoughtDemo.impressions).outputs "n1")) =
      some (some []) ∧
    handleStepCompletion regCompute 0 computeOrch1 "r1" "n1" potThoughtDemo.impressions =
      Except.error "IndexError: node_outputs[terminal][0]" := by
  decide

theorem clear_session_cons_drop (p : String × String) (rest : List (String × String))
    (rid : String) (pq : Bool)
    (hC : (p.1.startsWith rid && !(pq && p.1 == rid ++ ":query")) = true) :
    clear_session (p :: rest) rid pq = clear_session rest rid pq := by
  unfold clear_session
  rw [List.filter_cons]
  have h2 : (!(p.1.startsWith rid && !(pq && p.1 == rid ++ ":query"))) = false := by
    rw [hC]
    rfl
  rw [h2]
  simp

theorem clear_session_cons_keep (p : String × String) (rest : List (String × String))
    (rid : String) (pq : Bool)
    (hC : (p.1.startsWith rid && !(pq && p.1 == rid ++ ":query")) = false) :
    clear_session (p :: rest) rid pq = p :: clear_session rest rid pq := by
  unfold clear_session
  rw [List.filter_cons]
  have h2 : (!(p.1.startsWith rid && !(pq && p.1 == rid ++ ":query"))) = true := by
    rw [hC]
    rfl
  rw [h2]
  simp

theorem alookup_clear_session_query (mem : List (String × String)) (rid : String) :
    alookup (clear_session mem rid true) (rid ++ ":query") =
      alookup mem (rid ++ ":query") := by
  induction mem with
  | nil => rfl
  | cons p rest ih =>
    by_cases h : p.1 = rid ++ ":query"
    · rw [clear_session_cons_keep _ _ _ _ (by simp [h])]
      simp [alookup, h, ih]
    · cases hs : p.1.startsWith rid with
      | true =>
        rw [clear_session_cons_drop _ _ _ _ (by simp [hs, h])]
        rw [ih]
        simp [alookup, h]
      | false =>
        rw [clear_session_cons_keep _ _ _ _ (by simp [hs])]
        simp [alookup, h, ih]

theorem alookup_clear_session_removed (mem : List (String × String)) (rid k : String)
    (hpre : k.startsWith rid = true) (hne : ¬ k = rid ++ ":query") :
    alookup (clear_session mem rid true) k = none := by
  induction mem with
  | nil => rfl
  | cons p rest ih =>
    cases hC : (p.1.startsWith rid && !(true && p.1 == rid ++ ":query")) with
    | true =>
      rw [clear_session_cons_drop _ _ _ _ hC]
      exact ih
    | false =>
      have hpk : ¬ p.1 = k := by
        intro hk
        rw [hk] at hC
        simp [hpre, hne] at hC
      rw [clear_session_cons_keep _ _ _ _ hC]
      simp [alookup, hpk, ih]

/-- C6: whenever the dispatch tick leaves a stalled graph (queue empty,
running empty, not complete), execute_next_nodes appends a ReplanRequest
event addressed to the registry conductor entry carrying the request id and
the reason string (which contains the word stalled), clears the session
preserving exactly the request query key, and drops the graph. -/
theorem stall_triggers_replan (reg : AgentRegistry) (pick : Nat) (st : OrchState)
    (rid : String) (g : GraphState)
    (hg : alookup st.graphs rid = some g)
    (hstall : hasStalled (dispatchLoop reg pick rid g (g.queue.length + 1)).1 = true) :
    (executeNextNodes reg pick st rid).2 =
      (dispatchLoop reg pick rid g (g.queue.length + 1)).2 ++
        [Event.sendReplan (AgentRegistry.get_agent reg "conductor" pick) rid stallReason] ∧
    (∃ pre suf, stallReason = pre ++ "stalled" ++ suf) ∧
    (executeNextNodes reg pick st rid).1.memory = clear_session st.memory rid true ∧
    alookup (executeNextNodes reg pick st rid).1.memory (rid ++ ":query") =
      alookup st.memory (rid ++ ":query") ∧
    (∀ k, k.startsWith rid = true → ¬ k = rid ++ ":query" →
      alookup (executeNextNodes reg pick st rid).1.memory k = none) ∧
    alookup (executeNextNodes reg pick st rid).1.graphs rid = none := by
  have hexec : executeNextNodes reg pick st rid =
      ({ graphs := delKey st.graphs rid,
         memory := clear_session st.memory rid true },
       (dispatchLoop reg pick rid g (g.queue.length + 1)).2 ++
         [Event.sendReplan (AgentRegistry.get_agent reg "conductor" pick) rid
           stallReason]) := by
    simp only [executeNextNodes, hg, hstall, if_true]
  rw [hexec]
  refine ⟨rfl, ⟨"Graph execution ", ", possible cycle in plan.", rfl⟩, rfl, ?_, ?_, ?_⟩
  · exact alookup_clear_session_query st.memory rid
  · intro k hk hkq
    exact alookup_clear_session_removed st.memory rid k hk hkq
  · exact alookup_delKey_self st.graphs rid

/-- Witness for stall_triggers_replan: the cyclic plan from spec scenario
S2 stalls on its first tick and the replan event goes to the conductor. -/
theorem stall_triggers_replan_witness :
    (alookup stallDemo.graphs "r1" = some gCyc ∧
      hasStalled (dispatchLoop regDemo 0 "r1" gCyc (gCyc.queue.length + 1)).1 = true) ∧
    (executeNextNodes regDemo 0 stallDemo "r1").2 =
      (dispatchLoop regDemo 0 "r1" gCyc (gCyc.queue.length + 1)).2 ++
        [Event.sendReplan (AgentRegistry.get_agent regDemo "conductor" 0) "r1"
          stallReason] :=
  ⟨⟨by decide, by decide⟩,
    (stall_triggers_replan regDemo 0 stallDemo "r1" gCyc (by decide) (by decide)).1⟩

theorem string_data_append (s t : String) : (s ++ t).data = s.data ++ t.data := rfl

/-- C8: when the newly computed content hash equals the stored one, the
crawl step is exactly mark_visited: the refcount hash, the vector store and
the per-URL chunk sets are untouched (no upserts, deletes or refcount
changes), and the URL record is set to visited carrying the same,
unchanged content hash. -/
theorem unchanged_content_no_chunk_work (h : String → String) (s : CrawlState)
    (url rawText : String)
    (hsame : getContentHash s url = some (h (collapseWs rawText))) :
    processUrlText h s url rawText = markVisited s url (h (collapseWs rawText)) ∧
    (processUrlText h s url rawText).refcount = s.refcount ∧
    (processUrlText h s url rawText).docs = s.docs ∧
    (processUrlText h s url rawText).urlChunks = s.urlChunks ∧
    (alookup (processUrlText h s url rawText).records url).map CrawlRecord.status =
      some "visited" ∧
    (alookup (processUrlText h s url rawText).records url).map CrawlRecord.contentHash =
      some (getContentHash s url) := by
  have hstep : processUrlText h s url rawText =
      markVisited s url (h (collapseWs rawText)) := by
    unfold processUrlText
    rw [if_pos hsame]
  refine ⟨hstep, ?_, ?_, ?_, ?_, ?_⟩ <;> rw [hstep]
  · rfl
  · rfl
  · rfl
  · unfold markVisited
    show (alookup (dictSet s.records url _) url).map CrawlRecord.status = some "visited"
    rw [alookup_dictSet_self]
    rfl
  · unfold markVisited
    show (alookup (dictSet s.records url _) url).map CrawlRecord.contentHash =
      some (getContentHash s url)
    rw [alookup_dictSet_self]
    rw [hsame]
    rfl

/-- Witness for unchanged_content_no_chunk_work: a ledger that already
stores the hash of the collapsed text hello world (the digest is modelled
by the identity function here), re-crawled with identical content. -/
theorem unchanged_content_no_chunk_work_witness :
    getContentHash visitedCrawl "http://a.com/x" =
      some ((fun s => s) (collapseWs "hello  world")) ∧
    (processUrlText (fun s => s) visitedCrawl "http://a.com/x" "hello  world").refcount =
      visitedCrawl.refcount ∧
    (processUrlText (fun s => s) visitedCrawl "http://a.com/x" "hello  world").docs =
      visitedCrawl.docs :=
  ⟨by decide,
    (unchanged_content_no_chunk_work (fun s => s) visitedCrawl "http://a.com/x"
      "hello  world" (by decide)).2.1,
    (unchanged_content_no_chunk_work (fun s => s) visitedCrawl "http://a.com/x"
      "hello  world" (by decide)).2.2.1⟩

theorem takeWhile_append_strike {α : Type} (p : α → Bool) (l r : List α) (c : α)
    (hl : ∀ x ∈ l, p x = true) (hc : p c = false) :
    (l ++ c :: r).takeWhile p = l := by
  induction l with
  | nil => simp [List.takeWhile_cons, hc]
  | cons a rest ih =>
    have ha : p a = true := hl a (List.mem_cons_self a rest)
    have hrest : ∀ x ∈ rest, p x = true := fun x hx => hl x (List.mem_cons_of_mem a hx)
    simp [List.takeWhile_cons, ha, ih hrest]

theorem dropWhile_append_strike {α : Type} (p : α → Bool) (l r : List α) (c : α)
    (hl : ∀ x ∈ l, p x = true) (hc : p c = false) :
    (l ++ c :: r).dropWhile p = c :: r := by
  induction l with
  | nil => simp [List.dropWhile_cons, hc]
  | cons a rest ih =>
    have ha : p a = true := hl a (List.mem_cons_self a rest)
    have hrest : ∀ x ∈ rest, p x = true := fun x hx => hl x (List.mem_cons_of_mem a hx)
    simp [List.dropWhile_cons, ha, ih hrest]

theorem drop_len_cons {α : Type} (l r : List α) (c : α) :
    (l ++ c :: r).drop (l.length + 1) = r := by
  have h1 : (l ++ c :: r).drop l.length = c :: r := List.drop_left l (c :: r)
  have h2 : (l ++ c :: r).drop (l.length + 1) =
      ((l ++ c :: r).drop l.length).drop 1 := by
    rw [List.drop_drop]
  rw [h2, h1]
  rfl

theorem asString_toList (s : String) : s.toList.asString = s := by
  cases s
  rfl

theorem splitScheme_of_wf (sl rest : List Char)
    (h1 : ¬ sl = []) (h0 : (sl.headD ' ').isAlpha = true)
    (h2 : sl.all isSchemeChar = true) :
    splitScheme (sl ++ ':' :: rest) = (sl.map Char.toLower, rest) := by
  have hnc : ∀ c ∈ sl, (!(c = ':')) = true := by
    intro c hc
    have hsc := List.all_eq_true.mp h2 c hc
    have : ¬ c = ':' := by
      intro hcc
      rw [hcc] at hsc
      exact absurd hsc (by decide)
    simp [this]
  have htw : (sl ++ ':' :: rest).takeWhile (fun c => !(c = ':')) = sl :=
    takeWhile_append_strike _ _ _ _ hnc (by simp)
  unfold splitScheme
  rw [htw]
  have hlen : sl.length < (sl ++ ':' :: rest).length := by
    rw [List.length_append]
    simp
  rw [if_pos ⟨hlen, h1, h0, h2⟩, drop_len_cons]

/-- C9 counterexample: the normalizer does not lowercase the host: the
uppercase letters of EXample.com survive, while the claim would require
http followed by example.com in lowercase. -/
theorem normalize_lowercase_counterexample :
    crawlerNormalizeUrl "http://EXample.com/Path/" = "http://EXample.com/Path" ∧
    ¬ crawlerNormalizeUrl "http://EXample.com/Path/" = "http://example.com/Path" := by
  decide

theorem rstripSlash_append_slash (s : String) : rstripSlash (s ++ "/") = rstripSlash s := by
  unfold rstripSlash
  have h1 : (s ++ "/").toList = s.toList ++ ['/'] := rfl
  rw [h1, List.reverse_append]
  simp [List.dropWhile_cons]

/-- The netloc phase on a well-formed authority: double slash, then the
host runs to the first delimiter character. -/
theorem netlocPhase_of_parts (hostL r : List Char) (c : Char)
    (hh : ∀ x ∈ hostL, (!(netlocDelim x)) = true) (hc : netlocDelim c = true) :
    netlocPhase ('/' :: '/' :: (hostL ++ c :: r)) = (hostL, c :: r) := by
  unfold netlocPhase
  rw [if_pos (show (('/' :: '/' :: (hostL ++ c :: r)).take 2) = ['/', '/'] from rfl)]
  show splitNetloc (hostL ++ c :: r) = _
  unfold splitNetloc
  rw [takeWhile_append_strike _ _ _ _ hh (by simp [hc]),
      dropWhile_append_strike _ _ _ _ hh (by simp [hc])]

theorem paramsPhase_no_semi (scheme : String) (p : List Char) (h : ¬ ';' ∈ p) :
    paramsPhase scheme p = p := by
  unfold paramsPhase
  exact if_neg (fun hcon => h hcon.2)

/-- C9 amended: both the crawler and the ledger use the identical
normalization, which returns scheme, host and path with the query, the
fragment, the params (the semicolon suffix of the last path segment, for
schemes such as http and https) and trailing slashes stripped and only the
scheme lowercased; the case of the host is preserved, not lowercased.
Stated for every well-formed absolute URL assembled from a scheme, host,
semicolon-free path, query and fragment, together with a concrete
params-stripping instance and the trailing-slash-strip property of
rstripSlash. -/
theorem normalize_url_amended (scheme host path query frag : String)
    (hs1 : ¬ scheme.toList = []) (hs0 : (scheme.toList.headD ' ').isAlpha = true)
    (hs2 : scheme.toList.all isSchemeChar = true)
    (hh : host.toList.all (fun c => !(netlocDelim c)) = true)
    (hp0 : path.toList = [] ∨ ∃ pt, path.toList = '/' :: pt)
    (hp : path.toList.all (fun c => !(c = '#') && !(c = '?')) = true)
    (hsemi : ¬ ';' ∈ path.toList)
    (hq : query.toList.all (fun c => !(c = '#')) = true) :
    (∀ u, crawlerNormalizeUrl u = ledgerNormalizeUrl u) ∧
    crawlerNormalizeUrl (scheme ++ "://" ++ host ++ path ++ "?" ++ query ++ "#" ++ frag) =
      rstripSlash ((scheme.toList.map Char.toLower).asString ++ "://" ++ host ++ path) ∧
    crawlerNormalizeUrl "http://a.com/page;jsessionid=X" = "http://a.com/page" ∧
    (∀ s, rstripSlash (s ++ "/") = rstripSlash s) := by
  refine ⟨fun u => rfl, ?_, by decide, rstripSlash_append_slash⟩
  have hhost : ∀ x ∈ host.toList, (!(netlocDelim x)) = true := List.all_eq_true.mp hh
  have hpboth := List.all_eq_true.mp hp
  have hcs : (scheme ++ "://" ++ host ++ path ++ "?" ++ query ++ "#" ++ frag).toList =
      scheme.toList ++ ':' :: '/' :: '/' ::
        (host.toList ++ (path.toList ++ '?' :: (query.toList ++ '#' :: frag.toList))) := by
    show (scheme ++ "://" ++ host ++ path ++ "?" ++ query ++ "#" ++ frag).data = _
    simp only [string_data_append, List.append_assoc]
    rfl
  have hnp : netlocPhase ('/' :: '/' :: (host.toList ++
        (path.toList ++ '?' :: (query.toList ++ '#' :: frag.toList)))) =
      (host.toList, path.toList ++ '?' :: (query.toList ++ '#' :: frag.toList)) := by
    rcases hp0 with hp0 | ⟨pt, hp0⟩
    · rw [hp0]
      exact netlocPhase_of_parts host.toList _ '?' hhost (by decide)
    · rw [hp0]
      have hx := netlocPhase_of_parts host.toList
        (pt ++ '?' :: (query.toList ++ '#' :: frag.toList)) '/' hhost (by decide)
      simpa using hx
  have hall1 : ∀ x ∈ path.toList ++ '?' :: query.toList, (!(x = '#')) = true := by
    intro x hx
    rcases List.mem_append.mp hx with hx1 | hx1
    · have h3 := hpboth x hx1
      simp at h3
      simp [h3.1]
    · rcases List.mem_cons.mp hx1 with hx2 | hx2
      · rw [hx2]
        decide
      · exact List.all_eq_true.mp hq x hx2
  have hall2 : ∀ x ∈ path.toList, (!(x = '?')) = true := by
    intro x hx
    have h3 := hpboth x hx
    simp at h3
    simp [h3.2]
  have hpp : pathPhase (path.toList ++ '?' :: (query.toList ++ '#' :: frag.toList)) =
      path.toList := by
    unfold pathPhase
    have hfragSplit : path.toList ++ '?' :: (query.toList ++ '#' :: frag.toList) =
        (path.toList ++ '?' :: query.toList) ++ '#' :: frag.toList := by
      rw [List.append_assoc]
      rfl
    rw [hfragSplit, takeWhile_append_strike _ _ _ _ hall1 (by decide),
        takeWhile_append_strike _ _ _ _ hall2 (by decide)]
  have hparse : urlparse3 (scheme ++ "://" ++ host ++ path ++ "?" ++ query ++ "#" ++ frag) =
      ((scheme.toList.map Char.toLower).asString, host, path) := by
    unfold urlparse3
    rw [hcs, splitScheme_of_wf _ _ hs1 hs0 hs2]
    show ((scheme.toList.map Char.toLower).asString,
      (netlocPhase ('/' :: '/' :: (host.toList ++
        (path.toList ++ '?' :: (query.toList ++ '#' :: frag.toList))))).1.asString,
      (paramsPhase (scheme.toList.map Char.toLower).asString
        (pathPhase (netlocPhase ('/' :: '/' :: (host.toList ++
          (path.toList ++ '?' :: (query.toList ++ '#' :: frag.toList))))).2)).asString) = _
    rw [hnp]
    show ((scheme.toList.map Char.toLower).asString, host.toList.asString,
      (paramsPhase (scheme.toList.map Char.toLower).asString
        (pathPhase (path.toList ++ '?' ::
          (query.toList ++ '#' :: frag.toList)))).asString) = _
    rw [hpp, paramsPhase_no_semi _ _ hsemi, asString_toList, asString_toList]
  show rstripSlash
      ((urlparse3 (scheme ++ "://" ++ host ++ path ++ "?" ++ query ++ "#" ++ frag)).1 ++
        "://" ++
        (urlparse3 (scheme ++ "://" ++ host ++ path ++ "?" ++ query ++ "#" ++ frag)).2.1 ++
        (urlparse3 (scheme ++ "://" ++ host ++ path ++ "?" ++ query ++ "#" ++ frag)).2.2) = _
  rw [hparse]

/-- Witness for normalize_url_amended on a concrete mixed-case URL. -/
theorem normalize_url_amended_witness :
    (¬ ("http" : String).toList = [] ∧
      ("EXample.com" : String).toList.all (fun c => !(netlocDelim c)) = true) ∧
    crawlerNormalizeUrl "http://EXample.com/Path?x=1#sec" =
      rstripSlash (((("http" : String).toList.map Char.toLower).asString) ++ "://" ++
        "EXample.com" ++ "/Path") :=
  ⟨⟨by decide, by decide⟩,
    (normalize_url_amended "http" "EXample.com" "/Path" "x=1" "sec"
      (by decide) (by decide) (by decide) (by decide)
      (Or.inr ⟨['P', 'a', 't', 'h'], by decide⟩) (by decide) (by decide)
      (by decide)).2.1⟩

theorem splitGo_chunk_length (cs : List Char) (size overlap : Nat) :
    ∀ fuel start c, c ∈ splitGo cs size overlap start fuel → c.length ≤ size := by
  intro fuel
  induction fuel with
  | zero =>
    intro start c hc
    exact absurd hc (List.not_mem_nil c)
  | succ f ih =>
    intro start c hc
    by_cases h : start < cs.length
    · rw [show splitGo cs size overlap start (f + 1) =
          ((cs.drop start).take size) :: splitGo cs size overlap (start + (size - overlap)) f
        from by rw [splitGo, if_pos h]] at hc
      rcases List.mem_cons.mp hc with h1 | h1
      · rw [h1, List.length_take]
        exact min_le_left _ _
      · exact ih _ _ h1
    · rw [show splitGo cs size overlap start (f + 1) = [] from by rw [splitGo, if_neg h]] at hc
      exact absurd hc (List.not_mem_nil c)

theorem splitGo_coverage (cs : List Char) (size overlap : Nat) (hov : overlap < size) :
    ∀ fuel start i, start ≤ i → i < cs.length → cs.length - start < fuel →
      ∃ st, st ≤ i ∧ i < st + size ∧
        ((cs.drop st).take size) ∈ splitGo cs size overlap start fuel := by
  intro fuel
  induction fuel with
  | zero =>
    intro start i h1 h2 h3
    omega
  | succ f ih =>
    intro start i h1 h2 h3
    have hstart : start < cs.length := lt_of_le_of_lt h1 h2
    have hcons : splitGo cs size overlap start (f + 1) =
        ((cs.drop start).take size) :: splitGo cs size overlap (start + (size - overlap)) f := by
      rw [splitGo, if_pos hstart]
    by_cases hi : i < start + size
    · exact ⟨start, h1, hi, by rw [hcons]; exact List.mem_cons_self _ _⟩
    · push_neg at hi
      have h1' : start + (size - overlap) ≤ i := by omega
      have h3' : cs.length - (start + (size - overlap)) < f := by omega
      obtain ⟨st, ha, hb, hc⟩ := ih (start + (size - overlap)) i h1' h2 h3'
      exact ⟨st, ha, hb, by rw [hcons]; exact List.mem_cons_of_mem _ hc⟩

theorem splitGo_fuel_stable (cs : List Char) (size overlap : Nat) (hov : overlap < size) :
    ∀ f1 f2 start, cs.length - start < f1 → cs.length - start < f2 →
      splitGo cs size overlap start f1 = splitGo cs size overlap start f2 := by
  intro f1
  induction f1 with
  | zero =>
    intro f2 start h1 h2
    omega
  | succ f ih =>
    intro f2 start h1 h2
    cases f2 with
    | zero => omega
    | succ g =>
      by_cases h : start < cs.length
      · rw [show splitGo cs size overlap start (f + 1) =
            ((cs.drop start).take size) :: splitGo cs size overlap (start + (size - overlap)) f
          from by rw [splitGo, if_pos h]]
        rw [show splitGo cs size overlap start (g + 1) =
            ((cs.drop start).take size) :: splitGo cs size overlap (start + (size - overlap)) g
          from by rw [splitGo, if_pos h]]
        have hs1 : cs.length - (start + (size - overlap)) < f := by omega
        have hs2 : cs.length - (start + (size - overlap)) < g := by omega
        rw [ih g (start + (size - overlap)) hs1 hs2]
      · rw [show splitGo cs size overlap start (f + 1) = [] from by rw [splitGo, if_neg h]]
        rw [show splitGo cs size overlap start (g + 1) = [] from by rw [splitGo, if_neg h]]

/-- C10: for every text and every chunk_size and chunk_overlap with
chunk_overlap < chunk_size (as at all configured call sites), the splitter
terminates (its result is fuel-independent once the fuel exceeds the text
length, reproducing the Python while loop exactly), every returned chunk
has length at most chunk_size, every character position of the input is
covered by at least one returned chunk, the empty text yields the empty
list, and the architect's private splitter is the same function at its
tunables 9000 and 300. -/
theorem split_text_spec (t : String) (size overlap : Nat) (hov : overlap < size) :
    (∀ c ∈ split_text t size overlap, c.length ≤ size) ∧
    (∀ i, i < t.toList.length → ∃ st, st ≤ i ∧ i < st + size ∧
      ((t.toList.drop st).take size).asString ∈ split_text t size overlap) ∧
    split_text "" size overlap = [] ∧
    architectSplitChunks t = split_text t ARCH_CHUNK_SIZE ARCH_CHUNK_OVERLAP ∧
    (∀ fuel, t.toList.length < fuel →
      (splitGo t.toList size overlap 0 fuel).map List.asString = split_text t size overlap) := by
  refine ⟨?_, ?_, rfl, rfl, ?_⟩
  · intro c hc
    by_cases ht : t = ""
    · rw [ht] at hc
      exact absurd hc (List.not_mem_nil c)
    · rw [show split_text t size overlap =
          (splitGo t.toList size overlap 0 (t.toList.length + 1)).map List.asString
        from by rw [split_text, if_neg ht]] at hc
      obtain ⟨cl, hcl, hceq⟩ := List.mem_map.mp hc
      have hlen := splitGo_chunk_length t.toList size overlap _ _ _ hcl
      rw [← hceq]
      show cl.asString.length ≤ size
      have : cl.asString.length = cl.length := rfl
      rw [this]
      exact hlen
  · intro i hi
    have ht : ¬ t = "" := by
      intro ht
      rw [ht] at hi
      exact absurd hi (by simp)
    obtain ⟨st, h1, h2, h3⟩ :=
      splitGo_coverage t.toList size overlap hov (t.toList.length + 1) 0 i
        (Nat.zero_le i) hi (by omega)
    refine ⟨st, h1, h2, ?_⟩
    rw [show split_text t size overlap =
        (splitGo t.toList size overlap 0 (t.toList.length + 1)).map List.asString
      from by rw [split_text, if_neg ht]]
    exact List.mem_map.mpr ⟨_, h3, rfl⟩
  · intro fuel hfuel
    by_cases ht : t = ""
    · rw [ht]
      show (splitGo "".toList size overlap 0 fuel).map List.asString = []
      cases fuel with
      | zero => rfl
      | succ f =>
        rw [show splitGo "".toList size overlap 0 (f + 1) = [] from by
          rw [splitGo, if_neg (by simp [String.toList])]]
        rfl
    · rw [show split_text t size overlap =
          (splitGo t.toList size overlap 0 (t.toList.length + 1)).map List.asString
        from by rw [split_text, if_neg ht]]
      rw [splitGo_fuel_stable t.toList size overlap hov fuel (t.toList.length + 1) 0
        (by omega) (by omega)]

/-- Witness for split_text_spec at the call-site-like tunables 3 and 1 on a
six-character text. -/
theorem split_text_spec_witness :
    (1 < 3 ∧ split_text "abcdef" 3 1 = ["abc", "cde", "ef"]) ∧
    (∀ c ∈ split_text "abcdef" 3 1, c.length ≤ 3) :=
  ⟨⟨by decide, by decide⟩, (split_text_spec "abcdef" 3 1 (by decide)).1⟩

end Ioa
